import Mathlib

/-!
# Verification of the ssh-control-mcp session/connection engine

A shallow embedding, in Lean 4, of the core data structures and operations of
the `ssh-control-mcp` repository, together with theorems settling the frozen
claims C1–C10 about it.

Strings of the TypeScript source are modelled as `List Char`; JavaScript
string/array primitives (`indexOf`, `substring`, `trim`, `split`, `slice`)
are given faithful counterparts below.  Stateful classes
(`PersistentSession`, `ConnectionPool`, `SSHConnectionManager`) become
explicit state records with pure transition functions; thrown `SSHError`s
become `Except` results classified by the error taxonomy of the spec;
promise `resolve`/`reject` closures become an explicit log of sink firings.
Asynchronous timer callbacks (`setTimeout` bodies) are events that are not
fired inside the synchronous transition being modelled; the transitions
model exactly the synchronous effect of each method.
-/

namespace SCM

/-- The structured error kinds of the spec's error taxonomy (§7).  The source
throws `SSHError` with distinguishing messages; we model the kind only. -/
inductive SSHErr where
  | invalidArgument
  | notFound
  | duplicate
  | limitExceeded
  | policyDenied
  | keyUnavailable
  | connectionTimeout
  | connectionFailed
  | shellFailure
  | streamError
  | commandTimeout
  | sessionInactive
  deriving Repr, DecidableEq

/-! ## JavaScript string primitives over `List Char` -/

/-- JS `String.prototype.indexOf`: position of the first occurrence of
`pat` in `s`, or `none` (the source checks `!== -1`). -/
def indexOf? (s pat : List Char) : Option Nat :=
  go s 0
where
  go : List Char → Nat → Option Nat
    | [], i => if pat = [] ∧ i = 0 then some 0 else none
    | c :: rest, i =>
      if pat.isPrefixOf (c :: rest) then some i else go rest (i + 1)

/-- JS `String.prototype.substring(a, b)`: swaps the endpoints when
`a > b` and clamps them to the string length. -/
def jsSubstring (s : List Char) (a b : Nat) : List Char :=
  let lo := min (min a b) s.length
  let hi := min (max a b) s.length
  (s.take hi).drop lo

/-- JS whitespace as used by `String.prototype.trim` (the characters that
occur in practice in shell output). -/
def isJsWhitespace (c : Char) : Bool :=
  c = ' ' ∨ c = '\t' ∨ c = '\n' ∨ c = '\r' ∨ c = '\x0b' ∨ c = '\x0c'

/-- JS `String.prototype.trim`: drop whitespace from both ends. -/
def jsTrim (s : List Char) : List Char :=
  (((s.dropWhile isJsWhitespace).reverse.dropWhile isJsWhitespace)).reverse

/-- JS `String.prototype.split('\n')`; always returns at least one
segment (`""` splits to `[""]`). -/
def splitOnNl : List Char → List (List Char)
  | [] => [[]]
  | c :: rest =>
    match splitOnNl rest with
    | [] => [[]]
    | h :: t => if c = '\n' then [] :: h :: t else (c :: h) :: t

/-- JS `Array.prototype.join('\n')`. -/
def joinNl (l : List (List Char)) : List Char :=
  (l.intersperse ['\n']).flatten

/-- Decimal digit character for `d < 10`, as produced by JS number
stringification. -/
def digitChar (d : Nat) : Char :=
  Char.ofNat (48 + d)

/-- Structural worker for `natToChars`; `fuel` bounds the recursion depth
(any `fuel > n` computes the full numeral). -/
def natToCharsAux (fuel : Nat) (n : Nat) : List Char :=
  match fuel with
  | 0 => []
  | fuel + 1 =>
    if n < 10 then [digitChar n]
    else natToCharsAux fuel (n / 10) ++ [digitChar (n % 10)]

/-- Decimal numeral of a natural number, mirroring JS template-literal
interpolation of a nonnegative integer. -/
def natToChars (n : Nat) : List Char :=
  natToCharsAux (n + 1) n

/-- Numeric value of a digit list (used to state the round-trip that gives
injectivity of `natToChars`). -/
def digitsVal (l : List Char) : Nat :=
  l.foldl (fun acc c => acc * 10 + (c.toNat - 48)) 0

/-- JS `parseInt(ds, 10)` on a nonempty list of decimal digits. -/
def parseIntDigits (ds : List Char) : Nat :=
  digitsVal ds

/-! ## Constants (src/ssh/constants.ts) -/

/-- `BUFFER_LIMITS.MAX_SIZE` from src/ssh/constants.ts. -/
def MAX_SIZE : Nat := 10000

/-- `BUFFER_LIMITS.TRIM_TO` from src/ssh/constants.ts. -/
def TRIM_TO : Nat := 5000

/-! ## Shell formatters (src/shells.ts)

All three formatter classes share the same `parseExitCode` body: the regex
``new RegExp(`${endDelimiter}:(\d+)`)`` is applied to the accumulated output
and the first capture is `parseInt`ed.  The delimiters the session feeds in
(`___CMD_<ts>_<rand>____{START,END}_<id>`) contain no regex metacharacters,
so the regex search is a literal scan for `endDelimiter` followed by `:` and
one or more digits, left to right, capturing the maximal digit run. -/

/-- The left-to-right scan performed by ``output.match(`${end}:(\d+)`)``:
at each position try to match the literal `pat = end ++ ":"` followed by at
least one digit; on the first success return the maximal digit run. -/
def findExitDigits (pat : List Char) : List Char → Option (List Char)
  | [] => none
  | c :: rest =>
    let ds := ((c :: rest).drop pat.length).takeWhile Char.isDigit
    if pat.isPrefixOf (c :: rest) ∧ ds ≠ [] then some ds
    else findExitDigits pat rest

/-- `parseExitCode(output, endDelimiter)`, common to `BashShellFormatter`,
`PowerShellFormatter` and `CmdShellFormatter` in src/shells.ts: empty
arguments throw `InvalidArgument`; otherwise the first
`endDelimiter:(digits)` match yields the parsed code. -/
def parseExitCode (output endDelimiter : List Char) : Except SSHErr (Option Nat) :=
  if output = [] ∨ endDelimiter = [] then .error .invalidArgument
  else .ok ((findExitDigits (endDelimiter ++ [':']) output).map parseIntDigits)

/-- The shell kinds of src/shells.ts. -/
inductive ShellType where
  | bash
  | sh
  | powershell
  | cmd
  deriving Repr, DecidableEq

/-- `formatCommandWithDelimiters` for each formatter class of src/shells.ts.
Empty command or delimiters throw `InvalidArgument` in every class. -/
def formatCommandWithDelimiters (shell : ShellType)
    (command startDelimiter endDelimiter : List Char) :
    Except SSHErr (List Char) :=
  if command = [] ∨ startDelimiter = [] ∨ endDelimiter = [] then
    .error .invalidArgument
  else
    .ok <| match shell with
    | .bash | .sh =>
      "echo \"".toList ++ startDelimiter ++ "\"; ".toList ++ command ++
        "; echo \"".toList ++ endDelimiter ++ ":$?\"".toList
    | .powershell =>
      "Write-Output \"".toList ++ startDelimiter ++ "\"; ".toList ++ command ++
        "; Write-Output \"".toList ++ endDelimiter ++ ":$LASTEXITCODE\"".toList
    | .cmd =>
      "echo ".toList ++ startDelimiter ++ " & ".toList ++ command ++
        " & echo %ERRORLEVEL% > NUL & echo ".toList ++ endDelimiter ++
        ":%ERRORLEVEL%".toList

/-- `getKeepAliveCommand` for each formatter class of src/shells.ts. -/
def getKeepAliveCommand (shell : ShellType) : List Char :=
  match shell with
  | .bash | .sh => ['\n']
  | .powershell => "Write-Output \"\"\n".toList
  | .cmd => "echo.\n".toList

/-! ## Persistent session (src/ssh/session.ts)

The `PersistentSession` class becomes a state record plus pure transition
functions.  The promise closures `resolve`/`reject` carried by a
`CommandRequest` become a log of sink firings (`resolutions`); background
requests carry no-op sinks (`hasSink = false`), exactly as the source
installs `() => {}` for them.  Bytes written to the shell channel are
logged in `writes`.  `setTimeout`/`setInterval` callbacks (per-command
timers, keep-alive, session timeout) fire asynchronously and are not part
of the synchronous transitions modelled here. -/

/-- `SessionType` from src/ssh/types.ts. -/
inductive SessionType where
  | interactive
  | background
  deriving Repr, DecidableEq

/-- `SessionMode` from src/ssh/types.ts. -/
inductive SessionMode where
  | normal
  | raw
  deriving Repr, DecidableEq

/-- `CommandResult` from src/ssh/types.ts. -/
structure CommandResult where
  stdout : List Char
  stderr : List Char
  code : Option Nat
  signal : Option (List Char)
  deriving Repr, DecidableEq

/-- The settlement of a command request's outcome sink: `resolve` with a
result or `reject` with an error. -/
inductive Outcome where
  | success (r : CommandResult)
  | failure (e : SSHErr)
  deriving Repr, DecidableEq

/-- `CommandRequest` from src/ssh/types.ts.  `hasSink` records whether the
`resolve`/`reject` closures are a caller's promise callbacks (interactive)
or the no-ops installed for background requests. -/
structure CommandRequest where
  id : List Char
  command : List Char
  timeout : Int
  raw : Bool
  hasSink : Bool
  deriving Repr, DecidableEq

/-- The mutable state of a `PersistentSession` (the fields of the class and
of its `sessionInfo : SessionMetadata`), plus the observation logs
`resolutions` (sink firings) and `writes` (bytes written to the channel). -/
structure SessionState where
  sessionId : List Char
  sessionType : SessionType
  mode : SessionMode
  shell : ShellType
  commandDelimiter : List Char
  isInitialized : Bool
  isActive : Bool
  shellOpen : Bool
  outputBuffer : List (List Char)
  commandQueue : List CommandRequest
  currentCommand : Option CommandRequest
  outputData : List Char
  commandHistory : List (List Char)
  resolutions : List (List Char × Outcome)
  writes : List (List Char)
  deriving Repr, DecidableEq

/-- Fire a request's outcome sink: append to the resolution log when the
request carries caller callbacks, do nothing for the no-op sinks of
background requests. -/
def fireSink (s : SessionState) (req : CommandRequest) (o : Outcome) : SessionState :=
  if req.hasSink then {s with resolutions := s.resolutions ++ [(req.id, o)]} else s

/-- `processNextCommand` (src/ssh/session.ts:225-278): dequeue the head
request, promote it to `currentCommand`, clear the accumulator, and write
either the raw command or the delimiter-wrapped command to the shell.
The per-command timer armed here fires asynchronously (not modelled). -/
def processNextCommand (s : SessionState) : Except SSHErr SessionState :=
  match s.commandQueue with
  | [] => .ok s
  | req :: rest =>
    if ¬ s.shellOpen then .ok s
    else
      let s' : SessionState :=
        {s with commandQueue := rest, currentCommand := some req, outputData := []}
      if req.raw then
        .ok {s' with writes := s'.writes ++ [req.command ++ ['\n']]}
      else
        let startDelimiter := s'.commandDelimiter ++ "_START_".toList ++ req.id
        let endDelimiter := s'.commandDelimiter ++ "_END_".toList ++ req.id
        match formatCommandWithDelimiters s'.shell req.command startDelimiter endDelimiter with
        | .error e => .error e
        | .ok wrapped => .ok {s' with writes := s'.writes ++ [wrapped ++ ['\n']]}

/-- What `executeCommand` hands back to its caller: a synthetic immediate
result (background) or a pending promise identified by the request id
(interactive). -/
inductive ExecReturn where
  | immediate (r : CommandResult)
  | pending (id : List Char)
  deriving Repr, DecidableEq

/-- `executeCommand(command, timeout, raw?)` (src/ssh/session.ts:154-219).
`newId` is the freshly generated command id (`${Date.now()}_${random}` in
the source).  Validation order, the background fast path with its synthetic
result, and the enqueue/pump logic mirror the source. -/
def executeCommand (s : SessionState) (newId command : List Char)
    (timeout : Int) (raw? : Option Bool) :
    Except SSHErr (ExecReturn × SessionState) :=
  if command = [] then .error .invalidArgument
  else if timeout ≤ 0 then .error .invalidArgument
  else if ¬ s.isInitialized ∨ ¬ s.shellOpen ∨ ¬ s.isActive then .error .sessionInactive
  else
    let raw := raw?.getD (s.mode = .raw)
    if s.sessionType = .background then
      let req : CommandRequest := ⟨newId, command, timeout, raw, false⟩
      let s1 : SessionState :=
        {s with commandQueue := s.commandQueue ++ [req],
                commandHistory := s.commandHistory ++ [command]}
      -- lastActivity := new Date(); resetSessionTimeout(): wall-clock only
      match (if s1.currentCommand = none then processNextCommand s1 else .ok s1) with
      | .error e => .error e
      | .ok s2 =>
        .ok (.immediate
          ⟨"Command '".toList ++ command ++
             "' queued in background session '".toList ++ s.sessionId ++ ['\''],
           [], some 0, none⟩, s2)
    else
      let req : CommandRequest := ⟨newId, command, timeout, raw, true⟩
      let s1 : SessionState :=
        {s with commandQueue := s.commandQueue ++ [req],
                commandHistory := s.commandHistory ++ [command]}
      match (if s1.currentCommand = none then processNextCommand s1 else .ok s1) with
      | .error e => .error e
      | .ok s2 => .ok (.pending newId, s2)

/-- The bounded-buffer step of `handleShellOutput`
(src/ssh/session.ts:285-290): push the chunk; when the length exceeds
`MAX_SIZE`, keep the newest `TRIM_TO` entries (`slice(-TRIM_TO)`). -/
def bufferAppend (buf : List (List Char)) (data : List Char) : List (List Char) :=
  let b := buf ++ [data]
  if b.length > MAX_SIZE then b.drop (b.length - TRIM_TO) else b

/-- `lines.shift()` guarded by `lines[0] === ''` (src/ssh/session.ts:327). -/
def shiftIfHeadEmpty : List (List Char) → List (List Char)
  | [] :: t => t
  | l => l

/-- `lines.pop()` guarded by `lines[lines.length - 1] === ''`
(src/ssh/session.ts:328); on an empty array the guard reads `undefined`
and does not fire. -/
def popIfLastEmpty (l : List (List Char)) : List (List Char) :=
  match l.getLast? with
  | some [] => l.dropLast
  | _ => l

/-- `parseCommandOutput` (src/ssh/session.ts:302-343): look for the exit
code; when found, locate the start and `end:<code>` markers, take the
substring between them, `.trim()` it, strip one leading and one trailing
empty line, resolve the request and re-pump. -/
def parseCommandOutput (s : SessionState) : Except SSHErr SessionState :=
  match s.currentCommand with
  | none => .ok s
  | some req =>
    if req.raw then .ok s
    else
      let endDelimiter := s.commandDelimiter ++ "_END_".toList ++ req.id
      match parseExitCode s.outputData endDelimiter with
      | .error e => .error e
      | .ok none => .ok s
      | .ok (some exitCode) =>
        let startPattern := s.commandDelimiter ++ "_START_".toList ++ req.id
        let endPattern := endDelimiter ++ [':'] ++ natToChars exitCode
        match indexOf? s.outputData startPattern, indexOf? s.outputData endPattern with
        | some startIndex, some endIndex =>
          let output :=
            jsTrim (jsSubstring s.outputData (startIndex + startPattern.length) endIndex)
          let cleanOutput := joinNl (popIfLastEmpty (shiftIfHeadEmpty (splitOnNl output)))
          let s1 := fireSink s req (.success ⟨cleanOutput, [], some exitCode, none⟩)
          processNextCommand {s1 with currentCommand := none}
        | _, _ => .ok s

/-- `handleShellOutput(data)` (src/ssh/session.ts:284-296): background
sessions buffer every chunk; when a command is in flight the chunk is
appended to the accumulator and the framer runs. -/
def handleShellOutput (s : SessionState) (data : List Char) : Except SSHErr SessionState :=
  let s1 :=
    if s.sessionType = .background then
      {s with outputBuffer := bufferAppend s.outputBuffer data}
    else s
  match s1.currentCommand with
  | some _ => parseCommandOutput {s1 with outputData := s1.outputData ++ data}
  | none => .ok s1

/-- `cleanup` (src/ssh/session.ts:415-429): cancel both timers, deactivate,
clear the in-flight slot, drop the queue.  No request sink is fired. -/
def cleanup (s : SessionState) : SessionState :=
  {s with isActive := false, currentCommand := none, commandQueue := []}

/-- `close` (src/ssh/session.ts:405-410): run `cleanup`, then end the shell
channel (whose asynchronous `close` event later re-runs `cleanup` and emits
`closed`; that event is not part of this synchronous transition). -/
def closeSession (s : SessionState) : SessionState :=
  cleanup s

/-! ## Connection pool (src/ssh/connection-pool.ts)

`ConnectionPool` keeps `connections : Map<string, ConnectionInfo>` keyed by
the template string ``ssh-`${username}@${host}:${port}` `` and a
`ConnectionInfo` holds the `ssh2` client and a `connected` flag.  Client
objects are modelled by numeric identities handed out by a fresh-counter:
two acquires return the same client instance iff they return the same
identity.  `createConnection` is modelled on its success path (key file
read and handshake succeed); its failure modes (`KeyUnavailable`,
`ConnectionTimeout`, `ConnectionFailed`) abort before the pool map is
touched and are irrelevant to the claims below. -/

/-- A pool entry: connection key, client identity, `connected` flag.
The list is kept in insertion order like a JS `Map`. -/
structure PoolEntry where
  key : List Char
  clientId : Nat
  connected : Bool
  deriving Repr, DecidableEq

/-- The state of a `ConnectionPool`: the entry list and the fresh-counter
for client identities. -/
structure PoolState where
  connections : List PoolEntry
  nextClient : Nat
  deriving Repr, DecidableEq

/-- The empty pool (`new ConnectionPool()`). -/
def PoolState.empty : PoolState := ⟨[], 0⟩

/-- The connection key ``ssh-`${username}@${host}:${port}` ``
(src/ssh/connection-pool.ts:47). -/
def connKey (username host : List Char) (port : Nat) : List Char :=
  "ssh-".toList ++ username ++ '@' :: host ++ ':' :: natToChars port

/-- `Map.get` on the entry list. -/
def poolLookup (conns : List PoolEntry) (key : List Char) : Option PoolEntry :=
  conns.find? (fun e => e.key = key)

/-- `Map.delete` on the entry list. -/
def poolDelete (conns : List PoolEntry) (key : List Char) : List PoolEntry :=
  conns.filter (fun e => e.key ≠ key)

/-- `getConnection(host, username, privateKeyPath, port)`
(src/ssh/connection-pool.ts:30-68): validate, reuse a live entry, evict a
dead one, else create a fresh client and insert it.  There is no size
check of any kind in this method.  On error the pool is unchanged. -/
def getConnection (p : PoolState) (host username privateKeyPath : List Char)
    (port : Nat) : Except SSHErr Nat × PoolState :=
  if host = [] ∨ username = [] ∨ privateKeyPath = [] then
    (.error .invalidArgument, p)
  else if port = 0 ∨ port > 65535 then
    (.error .invalidArgument, p)
  else
    let key := connKey username host port
    let create : PoolState → Except SSHErr Nat × PoolState := fun q =>
      (.ok q.nextClient,
       ⟨q.connections ++ [⟨key, q.nextClient, true⟩], q.nextClient + 1⟩)
    match poolLookup p.connections key with
    | some entry =>
      if entry.connected then (.ok entry.clientId, p)
      else create ⟨poolDelete p.connections key, p.nextClient⟩
    | none => create p

/-- The `close` handler installed on each client
(src/ssh/connection-pool.ts:111-118): look the key up and flip its
`connected` flag to `false`; nothing is removed. -/
def handleClientClose (p : PoolState) (username host : List Char) (port : Nat) :
    PoolState :=
  let key := connKey username host port
  ⟨p.connections.map (fun e => if e.key = key then {e with connected := false} else e),
   p.nextClient⟩

/-- `disconnectAll` (src/ssh/connection-pool.ts:137-159): end every live
client (asynchronous, bounded by `FORCE_CLOSE`) and clear the registry
unconditionally. -/
def disconnectAll (p : PoolState) : PoolState :=
  ⟨[], p.nextClient⟩

/-- `getConnectionCount` (src/ssh/connection-pool.ts:165-167). -/
def getConnectionCount (p : PoolState) : Nat :=
  p.connections.length

/-! ## Session manager policy and registry

The configuration-aware `SSHConnectionManager` — the one constructed with a
`ServerConfig`, enforcing `allowedCommands`/`blockedCommands`/`maxSessions`
— is exercised by tests/ssh/manager.test.ts (which imports
`src/ssh/manager.js`) but that source file is not in the tree; only an
earlier manager without a security config is.  The definitions below are
therefore modelled from the spec (§4.4 "Policy application",
`createSession`), with the command-pattern regexes abstracted to boolean
predicates on the command string. -/

/-- The `security` section of the configuration (src/config/schema.ts):
optional allow/deny pattern lists and the session cap.  A regex pattern is
abstracted to the predicate "this command matches". -/
structure SecurityConfig where
  allowedCommands : Option (List (List Char → Bool))
  blockedCommands : Option (List (List Char → Bool))
  maxSessions : Nat

/-- Modelled from the spec: the Manager's command-policy check, run before
dispatching any command on both execution paths (spec §4.4: "if
`allowedCommands` is configured, the command must match at least one; else
`PolicyDenied`.  If `blockedCommands` is configured, it must not match any;
else `PolicyDenied`.  `allowedCommands` takes precedence when both apply"),
with the precedence semantics pinned down by tests/ssh/manager.test.ts
("should prioritize allowedCommands over blockedCommands"): when an allow
list is configured it alone decides. -/
def validateCommand (sec : SecurityConfig) (command : List Char) : Except SSHErr Unit :=
  match sec.allowedCommands with
  | some allowed =>
    if allowed.any (fun p => p command) then .ok () else .error .policyDenied
  | none =>
    match sec.blockedCommands with
    | some blocked =>
      if blocked.any (fun p => p command) then .error .policyDenied else .ok ()
    | none => .ok ()

/-- Modelled from the spec: the one-shot `executeCommand` path of the
Manager, reduced to its policy gate.  The returned list is the sequence of
commands handed to an SSH `exec` channel: a policy-denied command produces
no channel interaction at all. -/
def oneShotDispatch (sec : SecurityConfig) (command : List Char) :
    Except SSHErr Unit × List (List Char) :=
  match validateCommand sec command with
  | .error e => (.error e, [])
  | .ok _ => (.ok (), [command])

/-- Modelled from the spec: `executeInSession` with the policy gate applied
before delegating to the session's `executeCommand`.  On denial the session
state — in particular its channel `writes` — is untouched. -/
def executeInSessionChecked (sec : SecurityConfig) (s : SessionState)
    (newId command : List Char) (timeout : Int) (raw? : Option Bool) :
    Except SSHErr ExecReturn × SessionState :=
  match validateCommand sec command with
  | .error e => (.error e, s)
  | .ok _ =>
    match executeCommand s newId command timeout raw? with
    | .error e => (.error e, s)
    | .ok (r, s') => (.ok r, s')

/-- The Manager's registry state: insertion-ordered `sessionId → Session`
map (session objects modelled by numeric identities from a fresh-counter),
the security config, and the owned pool. -/
structure ManagerState where
  sessions : List (List Char × Nat)
  nextSession : Nat
  security : SecurityConfig
  pool : PoolState

/-- Modelled from the spec: `createSession` of the configuration-aware
Manager (spec §4.4: "reject if `id` already exists (`Duplicate`); reject if
active count ≥ `maxSessions` (`LimitExceeded`); acquire transport;
instantiate Session; `initialize()`; register; return"), with argument
validation as in the surviving earlier manager and `initialize()` taken on
its success path. -/
def createSession (m : ManagerState)
    (sessionId target username privateKeyPath : List Char) (port : Nat) :
    Except SSHErr Nat × ManagerState :=
  if sessionId = [] ∨ target = [] ∨ username = [] ∨ privateKeyPath = [] then
    (.error .invalidArgument, m)
  else if (m.sessions.find? (fun e => e.1 = sessionId)).isSome then
    (.error .duplicate, m)
  else if m.security.maxSessions ≤ m.sessions.length then
    (.error .limitExceeded, m)
  else
    match getConnection m.pool target username privateKeyPath port with
    | (.error e, p') => (.error e, {m with pool := p'})
    | (.ok _, p') =>
      (.ok m.nextSession,
       {m with pool := p',
               sessions := m.sessions ++ [(sessionId, m.nextSession)],
               nextSession := m.nextSession + 1})

/-! ## Session-info snapshots and aliasing (src/ssh/session.ts:349-355)

`getSessionInfo` returns
`{...this.sessionInfo, commandHistory: [...], environmentVars: new Map(...)}`:
a fresh object whose `commandHistory` array and `environmentVars` map are
fresh copies, but whose `createdAt`/`lastActivity` `Date` objects are the
very objects held by the live session.  To reason about mutation of shared
objects we model the object heap explicitly: `Date`, array and map objects
live in address-indexed stores, and a `SessionMetadata` value holds
references into them. -/

/-- The heap of mutable objects reachable from session metadata: `Date`
cells (epoch milliseconds), string-array cells, and `Map` cells. -/
structure Store where
  dates : List Nat
  arrays : List (List (List Char))
  maps : List (List (List Char × List Char))
  deriving Repr, DecidableEq

/-- `SessionMetadata` with object-valued fields as references into a
`Store` (mirroring the field layout of src/ssh/types.ts). -/
structure MetadataObj where
  sessionId : List Char
  target : List Char
  username : List Char
  type : SessionType
  mode : SessionMode
  createdAtRef : Nat
  lastActivityRef : Nat
  port : Nat
  workingDirectory : List Char
  envVarsRef : Nat
  isActive : Bool
  commandHistoryRef : Nat
  deriving Repr, DecidableEq

/-- The fully dereferenced value of a metadata object: what an observer of
the live session (or of a snapshot) actually sees. -/
structure MetadataValue where
  sessionId : List Char
  target : List Char
  username : List Char
  type : SessionType
  mode : SessionMode
  createdAt : Nat
  lastActivity : Nat
  port : Nat
  workingDirectory : List Char
  environmentVars : List (List Char × List Char)
  isActive : Bool
  commandHistory : List (List Char)
  deriving Repr, DecidableEq

/-- Dereference every object field of a metadata record. -/
def readMetadata (st : Store) (o : MetadataObj) : MetadataValue :=
  ⟨o.sessionId, o.target, o.username, o.type, o.mode,
   st.dates.getD o.createdAtRef 0,
   st.dates.getD o.lastActivityRef 0,
   o.port, o.workingDirectory,
   st.maps.getD o.envVarsRef [],
   o.isActive,
   st.arrays.getD o.commandHistoryRef []⟩

/-- `getSessionInfo()` (src/ssh/session.ts:349-355): spread the metadata
object — scalar fields and the `Date` references are copied as-is — and
allocate fresh copies of the `commandHistory` array and the
`environmentVars` map. -/
def getSessionInfo (st : Store) (o : MetadataObj) : Store × MetadataObj :=
  (⟨st.dates,
    st.arrays ++ [st.arrays.getD o.commandHistoryRef []],
    st.maps ++ [st.maps.getD o.envVarsRef []]⟩,
   {o with commandHistoryRef := st.arrays.length,
           envVarsRef := st.maps.length})

/-- In-place mutation of a `Date` object (e.g. `d.setTime(v)`). -/
def setDate (st : Store) (ref : Nat) (v : Nat) : Store :=
  {st with dates := st.dates.set ref v}

/-- `array.push(x)` on a heap-allocated string array. -/
def arrayPush (st : Store) (ref : Nat) (x : List Char) : Store :=
  {st with arrays := st.arrays.set ref (st.arrays.getD ref [] ++ [x])}

/-- `map.set(k, v)` on a heap-allocated `Map` (modelled as append; only
heap separation matters for the claims). -/
def mapSet (st : Store) (ref : Nat) (k v : List Char) : Store :=
  {st with maps := st.maps.set ref (st.maps.getD ref [] ++ [(k, v)])}

/-- Well-formedness of a metadata object against a store: every reference
points inside its store. -/
def MetadataObj.WF (st : Store) (o : MetadataObj) : Prop :=
  o.createdAtRef < st.dates.length ∧ o.lastActivityRef < st.dates.length ∧
  o.envVarsRef < st.maps.length ∧ o.commandHistoryRef < st.arrays.length

instance (st : Store) (o : MetadataObj) : Decidable (o.WF st) := by
  unfold MetadataObj.WF; infer_instance

/-! ## Statements taken from the spec's words

`claimedStdout` renders the output-extraction sentence of the spec ("Extract
the substring strictly between them; strip one leading and one trailing
blank line if present; the remainder is `stdout`") so that it can be
compared with what `parseCommandOutput` actually resolves. -/

/-- The stdout predicted by the spec sentence: the substring strictly
between the markers, with exactly one leading and one trailing blank line
removed if present and nothing else removed. -/
def claimedStdout (acc startPattern endPattern : List Char) : Option (List Char) :=
  match indexOf? acc startPattern, indexOf? acc endPattern with
  | some si, some ei =>
    some (joinNl (popIfLastEmpty (shiftIfHeadEmpty
      (splitOnNl (jsSubstring acc (si + startPattern.length) ei)))))
  | _, _ => none

/-- Invariant of reachable pool states: client identities are below the
fresh-counter and entries have pairwise distinct keys and identities. -/
def PoolInv (p : PoolState) : Prop :=
  (∀ e ∈ p.connections, e.clientId < p.nextClient) ∧
  p.connections.Pairwise (fun a b => a.key ≠ b.key ∧ a.clientId ≠ b.clientId)

/-! ## Concrete inputs used by witnesses and counterexamples -/

/-- An active interactive normal-mode bash session with delimiter stem `D`
and nothing queued. -/
def sessionEx : SessionState :=
  { sessionId := "i1".toList, sessionType := .interactive, mode := .normal,
    shell := .bash, commandDelimiter := "D".toList,
    isInitialized := true, isActive := true, shellOpen := true,
    outputBuffer := [], commandQueue := [], currentCommand := none,
    outputData := [], commandHistory := [], resolutions := [], writes := [] }

/-- `sessionEx` as a background session. -/
def sessionBgEx : SessionState :=
  { sessionEx with sessionId := "bg1".toList, sessionType := .background }

/-- A session in flight on command id `1` (as left by `processNextCommand`
after `executeCommand "echo ...trailing-space output..."`), used to feed
`handleShellOutput` a framed chunk. -/
def sessionInFlightEx : SessionState :=
  { sessionEx with
    currentCommand := some ⟨['1'], "cat file".toList, 30000, false, true⟩,
    writes := ["echo \"D_START_1\"; cat file; echo \"D_END_1:$?\"\n".toList] }

/-- The framed chunk delivered for `sessionInFlightEx`: the command's
genuine output is `"  hi  "` — two leading and two trailing spaces. -/
def chunkEx : List Char := "D_START_1\n  hi  \nD_END_1:0\n".toList

/-- An active session with one caller-backed request pending in the queue
and another in flight at the moment `close()` is called. -/
def sessionPendingEx : SessionState :=
  { sessionEx with
    currentCommand := some ⟨['1'], "sleep 100".toList, 30000, false, true⟩,
    commandQueue := [⟨"r1".toList, "ls".toList, 30000, false, true⟩] }

/-- A store holding the two `Date` cells, the history array and the env map
of one live session. -/
def storeEx : Store :=
  ⟨[1111, 2222], [["ls".toList]], [[("K".toList, "V".toList)]]⟩

/-- The live session's metadata object over `storeEx`. -/
def metadataObjEx : MetadataObj :=
  ⟨"s1".toList, "h".toList, "u".toList, .interactive, .normal,
   0, 1, 22, "~".toList, 0, true, 0⟩

/-- A security config with `allowedCommands = [^ls]` and
`blockedCommands = [^ls]` — the spec's policy-precedence scenario 7. -/
def policyEx : SecurityConfig :=
  ⟨some [fun c => c.take 2 = "ls".toList],
   some [fun c => c.take 2 = "ls".toList], 10⟩

/-- A manager owning one registered session `s1` under `policyEx`. -/
def managerEx : ManagerState :=
  ⟨[("s1".toList, 0)], 1, policyEx, PoolState.empty⟩

/-- A pool with one live entry for `(u, h, 22)`. -/
def poolLiveEx : PoolState :=
  ⟨[⟨connKey "u".toList "h".toList 22, 0, true⟩], 1⟩

/-- `poolLiveEx` after its transport's `close` event: same entry, dead. -/
def poolDeadEx : PoolState :=
  ⟨[⟨connKey "u".toList "h".toList 22, 0, false⟩], 1⟩

/-- The eleven distinct hosts of the connection-limit test
(tests/ssh/connection-pool.test.ts, "Connection Limits"). -/
def elevenHosts : List (List Char) :=
  (List.range 11).map (fun i => "host".toList ++ natToChars (i + 1))

/-- Acquire a connection for each listed host (user `user1`, key `/key1`,
port 22), keeping only the evolving pool. -/
def acquireAll (hosts : List (List Char)) (p : PoolState) : PoolState :=
  hosts.foldl (fun q h => (getConnection q h "user1".toList "/key1".toList 22).2) p

/-! ## Session lemmas -/

theorem processNextCommand_frame {s s' : SessionState}
    (h : processNextCommand s = .ok s') :
    s'.outputBuffer = s.outputBuffer ∧ s'.resolutions = s.resolutions ∧
    s'.commandHistory = s.commandHistory ∧ s'.sessionType = s.sessionType ∧
    s'.sessionId = s.sessionId ∧ s'.isActive = s.isActive ∧
    s'.isInitialized = s.isInitialized ∧ s'.shellOpen = s.shellOpen := by
  unfold processNextCommand at h
  split at h
  · injection h with h
    subst h
    exact ⟨rfl, rfl, rfl, rfl, rfl, rfl, rfl, rfl⟩
  · split at h
    · injection h with h
      subst h
      exact ⟨rfl, rfl, rfl, rfl, rfl, rfl, rfl, rfl⟩
    · dsimp only at h
      split at h
      · injection h with h
        subst h
        exact ⟨rfl, rfl, rfl, rfl, rfl, rfl, rfl, rfl⟩
      · split at h
        · cases h
        · injection h with h
          subst h
          exact ⟨rfl, rfl, rfl, rfl, rfl, rfl, rfl, rfl⟩

theorem fireSink_outputBuffer (s : SessionState) (req : CommandRequest)
    (o : Outcome) : (fireSink s req o).outputBuffer = s.outputBuffer := by
  unfold fireSink; split <;> rfl

theorem parseCommandOutput_outputBuffer {s s' : SessionState}
    (h : parseCommandOutput s = .ok s') : s'.outputBuffer = s.outputBuffer := by
  unfold parseCommandOutput at h
  split at h
  · injection h with h
    subst h
    rfl
  · split at h
    · injection h with h
      subst h
      rfl
    · dsimp only at h
      split at h
      · cases h
      · injection h with h
        subst h
        rfl
      · split at h
        · have hf := (processNextCommand_frame h).1
          rw [hf, fireSink_outputBuffer]
        · injection h with h
          subst h
          rfl

theorem bufferAppend_length_le {buf : List (List Char)} (data : List Char)
    (h : buf.length ≤ MAX_SIZE) : (bufferAppend buf data).length ≤ MAX_SIZE := by
  unfold bufferAppend
  dsimp only
  split
  · rename_i hgt
    rw [List.length_drop]
    unfold MAX_SIZE TRIM_TO at *
    omega
  · rename_i hle
    unfold MAX_SIZE at *
    simp only [List.length_append, List.length_cons, List.length_nil] at *
    omega

theorem bufferAppend_foldl_le (chunks : List (List Char))
    {buf : List (List Char)} (h : buf.length ≤ MAX_SIZE) :
    (chunks.foldl bufferAppend buf).length ≤ MAX_SIZE := by
  induction chunks generalizing buf with
  | nil => exact h
  | cons c rest ih => exact ih (bufferAppend_length_le c h)

/-- Claim C5. For every background session, each inbound chunk leaves the
output buffer within `MAX_SIZE`; a chunk that pushes the length past
`MAX_SIZE` trims the buffer to exactly the `TRIM_TO` most recent entries
(a suffix of the appended buffer, so only the oldest entries are
discarded); the bound is preserved over any sequence of chunks; and on a
background session `handleShellOutput` updates the buffer exactly by this
`bufferAppend` step. -/
theorem buffer_bounded_and_trims_to_newest
    (buf : List (List Char)) (data : List Char) :
    (buf.length ≤ MAX_SIZE → (bufferAppend buf data).length ≤ MAX_SIZE)
    ∧ (MAX_SIZE < (buf ++ [data]).length →
        bufferAppend buf data
          = (buf ++ [data]).drop ((buf ++ [data]).length - TRIM_TO)
        ∧ (bufferAppend buf data).length = TRIM_TO
        ∧ bufferAppend buf data <:+ buf ++ [data])
    ∧ (∀ chunks : List (List Char), buf.length ≤ MAX_SIZE →
        (chunks.foldl bufferAppend buf).length ≤ MAX_SIZE)
    ∧ (∀ s s' : SessionState, s.sessionType = .background →
        s.outputBuffer = buf → handleShellOutput s data = .ok s' →
        s'.outputBuffer = bufferAppend buf data) := by
  refine ⟨fun h => bufferAppend_length_le data h, fun h => ?_,
    fun chunks h => bufferAppend_foldl_le chunks h, fun s s' hbg hbuf h => ?_⟩
  · refine ⟨?_, ?_, ?_⟩
    · unfold bufferAppend
      rw [if_pos h]
    · unfold bufferAppend
      rw [if_pos h, List.length_drop]
      unfold MAX_SIZE TRIM_TO at *
      omega
    · unfold bufferAppend
      rw [if_pos h]
      exact List.drop_suffix _ _
  · unfold handleShellOutput at h
    rw [hbg] at h
    simp only [reduceIte] at h
    subst hbuf
    split at h
    · have := parseCommandOutput_outputBuffer h
      simpa using this
    · injection h with h
      subst h
      rfl

/-- Witness for `buffer_bounded_and_trims_to_newest` at a concrete overflow:
a buffer already at `MAX_SIZE` receives one more chunk and is trimmed to the
newest `TRIM_TO` entries. -/
theorem buffer_bounded_witness :
    (List.replicate MAX_SIZE ['a']).length ≤ MAX_SIZE
    ∧ MAX_SIZE < (List.replicate MAX_SIZE ['a'] ++ [['b']]).length
    ∧ (bufferAppend (List.replicate MAX_SIZE ['a']) ['b']).length = TRIM_TO := by
  have h1 : (List.replicate MAX_SIZE ['a']).length ≤ MAX_SIZE := by
    simp
  have h2 : MAX_SIZE < (List.replicate MAX_SIZE ['a'] ++ [['b']]).length := by
    simp
  exact ⟨h1, h2,
    ((buffer_bounded_and_trims_to_newest (List.replicate MAX_SIZE ['a'])
      ['b']).2.1 h2).2.1⟩

theorem formatCommandWithDelimiters_ok {shell : ShellType}
    {command startDelimiter endDelimiter : List Char}
    (hc : command ≠ []) (hs : startDelimiter ≠ []) (he : endDelimiter ≠ []) :
    ∃ w, formatCommandWithDelimiters shell command startDelimiter endDelimiter
      = .ok w := by
  unfold formatCommandWithDelimiters
  rw [if_neg (by simp [hc, hs, he])]
  exact ⟨_, rfl⟩

theorem processNextCommand_spec (s : SessionState) :
    (s.commandQueue = [] → processNextCommand s = .ok s)
    ∧ (s.shellOpen = false → processNextCommand s = .ok s)
    ∧ (∀ req rest, s.commandQueue = req :: rest → s.shellOpen = true →
        req.command ≠ [] →
        ∃ s', processNextCommand s = .ok s' ∧ s'.currentCommand = some req ∧
          s'.commandQueue = rest) := by
  refine ⟨fun hq => ?_, fun hs => ?_, fun req rest hq hs hc => ?_⟩
  · unfold processNextCommand
    rw [hq]
  · unfold processNextCommand
    cases hq : s.commandQueue with
    | nil => rfl
    | cons req rest =>
      dsimp only
      rw [if_pos (by simp [hs])]
  · unfold processNextCommand
    rw [hq]
    dsimp only
    rw [if_neg (by simp [hs])]
    by_cases hr : req.raw
    · rw [if_pos hr]
      exact ⟨_, rfl, rfl, rfl⟩
    · rw [if_neg hr]
      obtain ⟨w, hw⟩ := @formatCommandWithDelimiters_ok s.shell req.command
        (s.commandDelimiter ++ "_START_".toList ++ req.id)
        (s.commandDelimiter ++ "_END_".toList ++ req.id)
        hc (by simp) (by simp)
      rw [hw]
      exact ⟨_, rfl, rfl, rfl⟩

/-- Claim C4, evaluated on the code: `close()` (via `cleanup`) empties the
command queue and the in-flight slot and deactivates the session, but fires
no outcome sink — the resolution log is unchanged, for every session state;
in particular, at a session with a caller-backed request pending in the
queue, no `SessionInactive` failure (nor any other outcome) is ever
delivered to it. -/
theorem close_drops_pending_without_resolving :
    (∀ s : SessionState,
      (closeSession s).resolutions = s.resolutions
      ∧ (closeSession s).commandQueue = []
      ∧ (closeSession s).currentCommand = none
      ∧ (closeSession s).isActive = false)
    ∧ sessionPendingEx.commandQueue
        = [⟨"r1".toList, "ls".toList, 30000, false, true⟩]
    ∧ (closeSession sessionPendingEx).resolutions = [] := by
  exact ⟨fun s => ⟨rfl, rfl, rfl, rfl⟩, rfl, rfl⟩

/-- Claim C9. On an active background session, a nonempty command with a
positive timeout makes `executeCommand` return — synchronously, without
waiting for any framed completion — the synthetic result
`stdout = "Command '<cmd>' queued in background session '<id>'"`,
`exitCode = 0`, `signal = null`, while the command is appended to
`commandHistory` and its request is either promoted in flight or left in
the queue for dispatch. -/
theorem background_exec_returns_synthetic_immediately
    (s : SessionState) (newId command : List Char) (timeout : Int)
    (raw? : Option Bool)
    (hbg : s.sessionType = .background)
    (hinit : s.isInitialized = true) (hact : s.isActive = true)
    (hopen : s.shellOpen = true)
    (hc : command ≠ []) (ht : 0 < timeout)
    (hq : ∀ r ∈ s.commandQueue, r.command ≠ []) :
    ∃ s', executeCommand s newId command timeout raw? =
        .ok (.immediate
          ⟨"Command '".toList ++ command ++
             "' queued in background session '".toList ++ s.sessionId ++ ['\''],
           [], some 0, none⟩, s')
      ∧ s'.commandHistory = s.commandHistory ++ [command]
      ∧ ∃ req : CommandRequest, req.id = newId ∧ req.command = command ∧
          (s'.currentCommand = some req ∨ req ∈ s'.commandQueue) := by
  unfold executeCommand
  rw [if_neg hc, if_neg (by omega), if_neg (by simp [hinit, hopen, hact]),
    if_pos hbg]
  dsimp only
  set req : CommandRequest := ⟨newId, command, timeout, raw?.getD (s.mode = .raw), false⟩ with hreq
  set s1 : SessionState :=
    {s with commandQueue := s.commandQueue ++ [req],
            commandHistory := s.commandHistory ++ [command]} with hs1
  cases hcur : s.currentCommand with
  | some c =>
    rw [if_neg (by simp [hs1, hcur])]
    exact ⟨s1, rfl, rfl, req, rfl, rfl, .inr (by simp [hs1, hreq])⟩
  | none =>
    rw [if_pos (by simp [hs1, hcur])]
    have hq1 : ∀ r ∈ s1.commandQueue, r.command ≠ [] := by
      intro r hr
      simp only [hs1, List.mem_append, List.mem_singleton] at hr
      rcases hr with hr | hr
      · exact hq r hr
      · subst hr; exact hc
    cases hqs : s.commandQueue with
    | nil =>
      obtain ⟨s2, h2, hc2, _⟩ := (processNextCommand_spec s1).2.2 req []
        (by simp [hs1, hqs]) (by simp [hs1, hopen]) hc
      rw [h2]
      have hist := (processNextCommand_frame h2).2.2.1
      exact ⟨s2, rfl, by rw [hist], req, rfl, rfl, .inl hc2⟩
    | cons r0 rest =>
      obtain ⟨s2, h2, hc2, hq2⟩ := (processNextCommand_spec s1).2.2 r0
        (rest ++ [req]) (by simp [hs1, hqs]) (by simp [hs1, hopen])
        (hq r0 (by simp [hqs]))
      rw [h2]
      have hist := (processNextCommand_frame h2).2.2.1
      refine ⟨s2, rfl, by rw [hist], req, rfl, rfl, .inr ?_⟩
      rw [hq2]
      simp

/-- Witness for `background_exec_returns_synthetic_immediately`: the
concrete background session `sessionBgEx` and command `sleep 5`. -/
theorem background_exec_witness :
    ∃ s', executeCommand sessionBgEx "id7".toList "sleep 5".toList 30000 none =
        .ok (.immediate
          ⟨"Command '".toList ++ "sleep 5".toList ++
             "' queued in background session '".toList ++
             sessionBgEx.sessionId ++ ['\''],
           [], some 0, none⟩, s')
      ∧ s'.commandHistory = sessionBgEx.commandHistory ++ ["sleep 5".toList]
      ∧ ∃ req : CommandRequest, req.id = "id7".toList ∧
          req.command = "sleep 5".toList ∧
          (s'.currentCommand = some req ∨ req ∈ s'.commandQueue) :=
  background_exec_returns_synthetic_immediately sessionBgEx "id7".toList
    "sleep 5".toList 30000 none rfl rfl rfl rfl (by decide) (by decide)
    (by intro r hr; simp [sessionBgEx, sessionEx] at hr)

/-! ## Connection-pool lemmas and claims C2, C10 -/

/-- Claim C2, evaluated on the code: `getConnection` contains no capacity
check at all — it can never fail with `LimitExceeded` — and, replaying the
"Connection Limits" test of tests/ssh/connection-pool.test.ts, after ten
acquires for ten distinct hosts the eleventh acquire for a fresh host
succeeds and the pool holds eleven entries, exceeding the
`maxConnectionsPerHost` cap of 10 that the spec and that test require. -/
theorem pool_acquire_never_limit_exceeded :
    (∀ (p : PoolState) (host username privateKeyPath : List Char) (port : Nat),
        (getConnection p host username privateKeyPath port).1
          ≠ .error .limitExceeded)
    ∧ getConnectionCount (acquireAll (elevenHosts.take 10) PoolState.empty) = 10
    ∧ (getConnection (acquireAll (elevenHosts.take 10) PoolState.empty)
        "host11".toList "user1".toList "/key1".toList 22).1 = .ok 10
    ∧ getConnectionCount (acquireAll elevenHosts PoolState.empty) = 11 := by
  refine ⟨fun p host username privateKeyPath port => ?_, by decide, rfl,
    by decide⟩
  unfold getConnection
  dsimp only
  split
  · simp
  · split
    · simp
    · split
      · split
        · simp
        · simp
      · simp

theorem poolLookup_some {conns : List PoolEntry} {key : List Char}
    {entry : PoolEntry} (h : poolLookup conns key = some entry) :
    entry ∈ conns ∧ entry.key = key := by
  unfold poolLookup at h
  exact ⟨List.mem_of_find?_eq_some h, by simpa using List.find?_some h⟩

theorem poolDelete_not_mem {conns : List PoolEntry} {key : List Char}
    {entry : PoolEntry} (h : entry.key = key) :
    entry ∉ poolDelete conns key := by
  unfold poolDelete
  intro hmem
  have := List.of_mem_filter hmem
  simp [h] at this

/-- Claim C10.  When a pooled transport's `close` event fires, the handler
only flips that entry's `connected` flag: the entry count and the key and
client-identity sequences are unchanged (so `getConnectionCount` is
unchanged), entries under other keys are untouched, and the matching entry
survives with `connected = false`.  The dead entry disappears only through
a later `getConnection` for the same key — which evicts it and installs a
fresh client — or through `disconnectAll`, which clears the registry. -/
theorem transport_close_marks_entry_dead_only
    (p : PoolState) (username host : List Char) (port : Nat) :
    getConnectionCount (handleClientClose p username host port)
        = getConnectionCount p
    ∧ (handleClientClose p username host port).connections.map PoolEntry.key
        = p.connections.map PoolEntry.key
    ∧ (handleClientClose p username host port).connections.map PoolEntry.clientId
        = p.connections.map PoolEntry.clientId
    ∧ (∀ e ∈ p.connections, e.key ≠ connKey username host port →
        e ∈ (handleClientClose p username host port).connections)
    ∧ (∀ e ∈ p.connections, e.key = connKey username host port →
        {e with connected := false}
          ∈ (handleClientClose p username host port).connections)
    ∧ (disconnectAll p).connections = []
    ∧ (∀ (q : PoolState) (privateKeyPath : List Char) (entry : PoolEntry),
        host ≠ [] → username ≠ [] → privateKeyPath ≠ [] →
        port ≠ 0 → port ≤ 65535 →
        poolLookup q.connections (connKey username host port) = some entry →
        entry.connected = false →
        (getConnection q host username privateKeyPath port).1 = .ok q.nextClient
        ∧ entry ∉ (getConnection q host username privateKeyPath port).2.connections) := by
  refine ⟨?_, ?_, ?_, fun e he hne => ?_, fun e he hk => ?_, rfl,
    fun q privateKeyPath entry hh hu hkp hp0 hple hfind hdead => ?_⟩
  · unfold getConnectionCount handleClientClose
    simp
  · unfold handleClientClose
    simp only [List.map_map]
    apply List.map_congr_left
    intro e _
    simp only [Function.comp_apply]
    split <;> rfl
  · unfold handleClientClose
    simp only [List.map_map]
    apply List.map_congr_left
    intro e _
    simp only [Function.comp_apply]
    split <;> rfl
  · unfold handleClientClose
    have : (fun e : PoolEntry =>
        if e.key = connKey username host port then {e with connected := false}
        else e) e = e := by
      dsimp only
      rw [if_neg hne]
    exact this ▸ List.mem_map_of_mem _ he
  · unfold handleClientClose
    have : (fun e : PoolEntry =>
        if e.key = connKey username host port then {e with connected := false}
        else e) e = {e with connected := false} := by
      dsimp only
      rw [if_pos hk]
    exact this ▸ List.mem_map_of_mem _ he
  · unfold getConnection
    rw [if_neg (by simp [hh, hu, hkp]), if_neg (by omega)]
    dsimp only
    rw [hfind]
    dsimp only
    rw [if_neg (by simp [hdead])]
    refine ⟨rfl, ?_⟩
    dsimp only
    intro hmem
    rcases List.mem_append.mp hmem with hmem | hmem
    · exact poolDelete_not_mem (poolLookup_some hfind).2 hmem
    · have hkey := (poolLookup_some hfind).2
      simp only [List.mem_singleton] at hmem
      rw [hmem] at hdead
      simp at hdead

/-! ## Manager lemmas and claims C1, C3 -/

theorem getConnection_ok {p : PoolState}
    {host username privateKeyPath : List Char} {port : Nat}
    (hh : host ≠ []) (hu : username ≠ []) (hk : privateKeyPath ≠ [])
    (h0 : port ≠ 0) (hle : port ≤ 65535) :
    ∃ c p', getConnection p host username privateKeyPath port = (.ok c, p') := by
  unfold getConnection
  rw [if_neg (by simp [hh, hu, hk]), if_neg (by omega)]
  dsimp only
  split
  · split
    · exact ⟨_, _, rfl⟩
    · exact ⟨_, _, rfl⟩
  · exact ⟨_, _, rfl⟩

/-- Claim C3.  `createSession` with valid arguments: an already-registered
id fails with `Duplicate` and leaves the registry unchanged; a registry at
or above `maxSessions` fails with `LimitExceeded` and leaves it unchanged;
only otherwise is a fresh session created, appended to the registry under
the id, and returned. -/
theorem createSession_rejects_then_registers
    (m : ManagerState) (sessionId target username privateKeyPath : List Char)
    (port : Nat)
    (hid : sessionId ≠ []) (htg : target ≠ []) (hun : username ≠ [])
    (hkp : privateKeyPath ≠ []) (hp0 : port ≠ 0) (hple : port ≤ 65535) :
    ((m.sessions.find? (fun e => e.1 = sessionId)).isSome →
        createSession m sessionId target username privateKeyPath port
          = (.error .duplicate, m))
    ∧ ((m.sessions.find? (fun e => e.1 = sessionId)).isSome = false →
        m.security.maxSessions ≤ m.sessions.length →
        createSession m sessionId target username privateKeyPath port
          = (.error .limitExceeded, m))
    ∧ ((m.sessions.find? (fun e => e.1 = sessionId)).isSome = false →
        m.sessions.length < m.security.maxSessions →
        ∃ m', createSession m sessionId target username privateKeyPath port
            = (.ok m.nextSession, m')
          ∧ m'.sessions = m.sessions ++ [(sessionId, m.nextSession)]
          ∧ m'.sessions.find? (fun e => e.1 = sessionId)
              = some (sessionId, m.nextSession)) := by
  refine ⟨fun hdup => ?_, fun hnodup hge => ?_, fun hnodup hlt => ?_⟩
  · unfold createSession
    rw [if_neg (by simp [hid, htg, hun, hkp]), if_pos hdup]
  · unfold createSession
    rw [if_neg (by simp [hid, htg, hun, hkp]), if_neg (by simp [hnodup]),
      if_pos hge]
  · unfold createSession
    rw [if_neg (by simp [hid, htg, hun, hkp]), if_neg (by simp [hnodup]),
      if_neg (by omega)]
    obtain ⟨c, p', hconn⟩ := getConnection_ok htg hun hkp hp0 hple
    rw [hconn]
    refine ⟨_, rfl, rfl, ?_⟩
    rw [List.find?_append]
    rw [show m.sessions.find? (fun e => e.1 = sessionId) = none from
      Option.not_isSome_iff_eq_none.mp (by simp [hnodup])]
    simp

/-- Claim C1.  The Manager's policy gate, applied on both dispatch paths:
a dispatched command matches at least one allowed pattern whenever an allow
list is configured, and matches no blocked pattern whenever only a block
list is configured; a rejected command fails with `PolicyDenied` and causes
no channel interaction (no exec dispatch, untouched session state); and
when both lists are configured, a command matching the allow list is
dispatched — `allowedCommands` takes precedence. -/
theorem policy_gate (sec : SecurityConfig) (command : List Char)
    (s : SessionState) (newId : List Char) (timeout : Int)
    (raw? : Option Bool) :
    (validateCommand sec command = .ok () →
      (∀ allowed, sec.allowedCommands = some allowed →
        allowed.any (fun p => p command) = true)
      ∧ (sec.allowedCommands = none →
          ∀ blocked, sec.blockedCommands = some blocked →
            blocked.any (fun p => p command) = false)
      ∧ oneShotDispatch sec command = (.ok (), [command]))
    ∧ (∀ e, validateCommand sec command = .error e →
        e = .policyDenied
        ∧ oneShotDispatch sec command = (.error .policyDenied, [])
        ∧ executeInSessionChecked sec s newId command timeout raw?
            = (.error .policyDenied, s))
    ∧ (∀ allowed, sec.allowedCommands = some allowed →
        allowed.any (fun p => p command) = true →
        validateCommand sec command = .ok ()) := by
  refine ⟨fun hok => ⟨fun allowed hal => ?_, fun hnone blocked hbl => ?_,
      ?_⟩, fun e herr => ?_, fun allowed hal hany => ?_⟩
  · unfold validateCommand at hok
    rw [hal] at hok
    dsimp only at hok
    by_cases h : allowed.any (fun p => p command) = true
    · exact h
    · rw [if_neg h] at hok
      cases hok
  · unfold validateCommand at hok
    rw [hnone, hbl] at hok
    dsimp only at hok
    by_cases h : blocked.any (fun p => p command) = true
    · rw [if_pos h] at hok
      cases hok
    · simpa using h
  · unfold oneShotDispatch
    rw [hok]
  · have hpd : e = .policyDenied := by
      unfold validateCommand at herr
      cases hal : sec.allowedCommands with
      | some allowed =>
        rw [hal] at herr
        dsimp only at herr
        split at herr
        · cases herr
        · injection herr with herr
          exact herr.symm
      | none =>
        rw [hal] at herr
        dsimp only at herr
        cases hbl : sec.blockedCommands with
        | some blocked =>
          rw [hbl] at herr
          dsimp only at herr
          split at herr
          · injection herr with herr
            exact herr.symm
          · cases herr
        | none =>
          rw [hbl] at herr
          dsimp only at herr
          cases herr
    subst hpd
    refine ⟨rfl, ?_, ?_⟩
    · unfold oneShotDispatch
      rw [herr]
    · unfold executeInSessionChecked
      rw [herr]
  · unfold validateCommand
    rw [hal]
    dsimp only
    rw [if_pos hany]

/-- Witness for `policy_gate`: the spec's precedence scenario 7 —
`allowedCommands = [^ls]`, `blockedCommands = [^ls]`, command `ls -la` is
dispatched. -/
theorem policy_gate_witness :
    validateCommand policyEx "ls -la".toList = .ok ()
    ∧ oneShotDispatch policyEx "ls -la".toList = (.ok (), ["ls -la".toList]) := by
  have h := policy_gate policyEx "ls -la".toList sessionEx [] 1 none
  have hval : validateCommand policyEx "ls -la".toList = .ok () :=
    h.2.2 [fun c => c.take 2 = "ls".toList] rfl (by decide)
  exact ⟨hval, (h.1 hval).2.2⟩

/-- Witness for `createSession_rejects_then_registers`: on `managerEx`,
re-using id `s1` fails with `Duplicate`, while a fresh id `s2` registers. -/
theorem createSession_witness :
    createSession managerEx "s1".toList "h".toList "u".toList "/k".toList 22
      = (.error .duplicate, managerEx)
    ∧ ∃ m', createSession managerEx "s2".toList "h".toList "u".toList
        "/k".toList 22 = (.ok 1, m')
      ∧ m'.sessions = managerEx.sessions ++ [("s2".toList, 1)] := by
  constructor
  · exact (createSession_rejects_then_registers managerEx "s1".toList
      "h".toList "u".toList "/k".toList 22 (by decide) (by decide) (by decide)
      (by decide) (by decide) (by decide)).1 (by decide)
  · obtain ⟨m', h1, h2, _⟩ := (createSession_rejects_then_registers managerEx
      "s2".toList "h".toList "u".toList "/k".toList 22 (by decide) (by decide)
      (by decide) (by decide) (by decide) (by decide)).2.2 (by decide)
      (by decide)
    exact ⟨m', h1, h2⟩

/-- Witness for `transport_close_marks_entry_dead_only` at `poolLiveEx`:
the count survives the close event, the dead entry stays present, and a
later same-key acquire on the dead pool returns a fresh client without the
dead entry. -/
theorem transport_close_witness :
    getConnectionCount (handleClientClose poolLiveEx "u".toList "h".toList 22)
        = getConnectionCount poolLiveEx
    ∧ (⟨connKey "u".toList "h".toList 22, 0, false⟩ : PoolEntry)
        ∈ (handleClientClose poolLiveEx "u".toList "h".toList 22).connections
    ∧ (getConnection poolDeadEx "h".toList "u".toList "/k".toList 22).1
        = .ok 1
    ∧ (⟨connKey "u".toList "h".toList 22, 0, false⟩ : PoolEntry)
        ∉ (getConnection poolDeadEx "h".toList "u".toList "/k".toList
            22).2.connections := by
  have h := transport_close_marks_entry_dead_only poolLiveEx "u".toList
    "h".toList 22
  have h7 := h.2.2.2.2.2.2 poolDeadEx "/k".toList
    ⟨connKey "u".toList "h".toList 22, 0, false⟩ (by decide) (by decide)
    (by decide) (by decide) (by decide) (by decide) rfl
  exact ⟨h.1,
    h.2.2.2.2.1 ⟨connKey "u".toList "h".toList 22, 0, true⟩ (by decide) rfl,
    h7.1, h7.2⟩

/-- Witness for `pool_acquire_never_limit_exceeded` at a concrete acquire. -/
theorem pool_acquire_witness :
    (getConnection PoolState.empty "h".toList "u".toList "/k".toList 22).1
      ≠ .error .limitExceeded :=
  pool_acquire_never_limit_exceeded.1 PoolState.empty "h".toList "u".toList
    "/k".toList 22

/-! ## Claim C7: snapshot isolation -/

theorem getD_set_ne {α : Type} (l : List α) (i j : Nat) (v d : α)
    (h : i ≠ j) : (l.set i v).getD j d = l.getD j d := by
  induction l generalizing i j with
  | nil => rfl
  | cons a t ih =>
    cases i with
    | zero =>
      cases j with
      | zero => exact absurd rfl h
      | succ j => simp [List.getD_cons_succ]
    | succ i =>
      cases j with
      | zero => simp [List.getD_cons_zero]
      | succ j =>
        simp only [List.set_cons_succ, List.getD_cons_succ]
        exact ih i j (by omega)

theorem getD_append_self_length {α : Type} (l : List α) (x d : α) :
    (l ++ [x]).getD l.length d = x := by
  rw [List.getD_append_right _ _ _ _ (Nat.le_refl _), Nat.sub_self]
  rfl

/-- Claim C7, refuted at a concrete input: `getSessionInfo` spreads the
metadata object, so the snapshot holds the very same `Date` objects as the
live session; mutating the snapshot's `createdAt` (e.g. `setTime(9999)`)
changes what the live session's metadata reads back, contradicting the
deep-copy claim for the timestamp fields. -/
theorem snapshot_shares_date_objects :
    readMetadata
        (setDate (getSessionInfo storeEx metadataObjEx).1
          (getSessionInfo storeEx metadataObjEx).2.createdAtRef 9999)
        metadataObjEx
      ≠ readMetadata storeEx metadataObjEx := by
  decide

/-- Claim C7 as amended.  The snapshot taken by `getSessionInfo` is
faithful (it reads back the same value as the live object) and isolates the
collection fields: taking it does not disturb the live view, and pushing to
the snapshot's `commandHistory` array or writing to its `environmentVars`
map leaves the live session's metadata unchanged — only the shared `Date`
objects are aliased. -/
theorem snapshot_isolates_collections (st : Store) (o : MetadataObj)
    (hwf : o.WF st) :
    readMetadata (getSessionInfo st o).1 o = readMetadata st o
    ∧ readMetadata (getSessionInfo st o).1 (getSessionInfo st o).2
        = readMetadata st o
    ∧ (∀ x, readMetadata
        (arrayPush (getSessionInfo st o).1
          (getSessionInfo st o).2.commandHistoryRef x) o
        = readMetadata st o)
    ∧ (∀ k v, readMetadata
        (mapSet (getSessionInfo st o).1 (getSessionInfo st o).2.envVarsRef k v) o
        = readMetadata st o) := by
  obtain ⟨hd1, hd2, hm, ha⟩ := hwf
  have harr : ∀ st' : Store, st'.dates = st.dates →
      st'.arrays.getD o.commandHistoryRef [] = st.arrays.getD o.commandHistoryRef [] →
      st'.maps.getD o.envVarsRef [] = st.maps.getD o.envVarsRef [] →
      readMetadata st' o = readMetadata st o := by
    intro st' h1 h2 h3
    unfold readMetadata
    rw [h1, h2, h3]
  refine ⟨?_, ?_, fun x => ?_, fun k v => ?_⟩
  · exact harr _ rfl (List.getD_append _ _ _ _ ha) (List.getD_append _ _ _ _ hm)
  · unfold readMetadata getSessionInfo
    dsimp only
    rw [getD_append_self_length, getD_append_self_length]
  · refine harr _ rfl ?_ ?_
    · unfold arrayPush getSessionInfo
      dsimp only
      rw [getD_set_ne _ _ _ _ _ (by omega), List.getD_append _ _ _ _ ha]
    · unfold arrayPush getSessionInfo
      dsimp only
      rw [List.getD_append _ _ _ _ hm]
  · refine harr _ rfl ?_ ?_
    · unfold mapSet getSessionInfo
      dsimp only
      rw [List.getD_append _ _ _ _ ha]
    · unfold mapSet getSessionInfo
      dsimp only
      rw [getD_set_ne _ _ _ _ _ (by omega), List.getD_append _ _ _ _ hm]

/-- Witness for `snapshot_isolates_collections` at the concrete store and
metadata object of the example session. -/
theorem snapshot_isolates_witness :
    readMetadata
        (arrayPush (getSessionInfo storeEx metadataObjEx).1
          (getSessionInfo storeEx metadataObjEx).2.commandHistoryRef
          "fake command".toList)
        metadataObjEx
      = readMetadata storeEx metadataObjEx :=
  (snapshot_isolates_collections storeEx metadataObjEx (by decide)).2.2.1
    "fake command".toList

/-! ## Claim C6: framed-output extraction

The chain `output.trim().split('\n')` / conditional `shift` / conditional
`pop` / `join('\n')` of `parseCommandOutput` collapses to `output.trim()`:
after `trim`, the first and last split segments are never empty (they would
require a leading or trailing newline), so the guarded `shift`/`pop` do not
fire and `join` undoes `split`. -/

theorem splitOnNl_ne_nil (s : List Char) : splitOnNl s ≠ [] := by
  cases s with
  | nil => simp [splitOnNl]
  | cons c rest =>
    unfold splitOnNl
    cases splitOnNl rest with
    | nil => simp
    | cons h t =>
      dsimp only
      split <;> simp

theorem joinNl_cons_cons (a b : List Char) (l : List (List Char)) :
    joinNl (a :: b :: l) = a ++ '\n' :: joinNl (b :: l) := by
  unfold joinNl
  rw [List.intersperse_cons_cons]
  simp

theorem joinNl_cons_head (c : Char) (h : List Char) (t : List (List Char)) :
    joinNl ((c :: h) :: t) = c :: joinNl (h :: t) := by
  cases t with
  | nil => simp [joinNl]
  | cons x t' => rw [joinNl_cons_cons, joinNl_cons_cons, List.cons_append]

theorem joinNl_splitOnNl (s : List Char) : joinNl (splitOnNl s) = s := by
  induction s with
  | nil => simp [splitOnNl, joinNl]
  | cons c rest ih =>
    obtain ⟨h, t, hsp⟩ : ∃ h t, splitOnNl rest = h :: t := by
      cases hx : splitOnNl rest with
      | nil => exact absurd hx (splitOnNl_ne_nil rest)
      | cons h t => exact ⟨h, t, rfl⟩
    unfold splitOnNl
    rw [hsp]
    dsimp only
    rw [hsp] at ih
    by_cases hc : c = '\n'
    · rw [if_pos hc]
      have : joinNl ([] :: h :: t) = '\n' :: joinNl (h :: t) := by
        rw [joinNl_cons_cons]
        rfl
      rw [this, ih, hc]
    · rw [if_neg hc, joinNl_cons_head, ih]

theorem shiftIfHeadEmpty_cons_ne (c : Char) (h : List Char)
    (t : List (List Char)) : shiftIfHeadEmpty ((c :: h) :: t) = (c :: h) :: t :=
  rfl

theorem popIfLastEmpty_of_getLast_ne {l : List (List Char)}
    {l0 : List Char} (hl : l.getLast? = some l0) (hne : l0 ≠ []) :
    popIfLastEmpty l = l := by
  unfold popIfLastEmpty
  rw [hl]
  cases l0 with
  | nil => exact absurd rfl hne
  | cons c cs => rfl

theorem splitOnNl_getLast_ne_nil (s : List Char) :
    ∀ c, s.getLast? = some c → c ≠ '\n' →
      ∃ l0, (splitOnNl s).getLast? = some l0 ∧ l0 ≠ [] := by
  induction s with
  | nil => intro c hc; cases hc
  | cons a t ih =>
    intro c hc hcn
    cases t with
    | nil =>
      simp only [List.getLast?_singleton, Option.some_inj] at hc
      subst hc
      simp only [splitOnNl]
      rw [if_neg hcn]
      exact ⟨[a], by simp, by simp⟩
    | cons x t' =>
      rw [List.getLast?_cons_cons] at hc
      obtain ⟨l0, hl0, hl0ne⟩ := ih c hc hcn
      obtain ⟨h0, t0, hsp⟩ : ∃ h0 t0, splitOnNl (x :: t') = h0 :: t0 := by
        cases hx : splitOnNl (x :: t') with
        | nil => exact absurd hx (splitOnNl_ne_nil _)
        | cons h0 t0 => exact ⟨h0, t0, rfl⟩
      unfold splitOnNl
      rw [hsp]
      dsimp only
      rw [hsp] at hl0
      by_cases ha : a = '\n'
      · rw [if_pos ha]
        rw [List.getLast?_cons_cons]
        exact ⟨l0, hl0, hl0ne⟩
      · rw [if_neg ha]
        cases t0 with
        | nil =>
          simp only [List.getLast?_singleton, Option.some_inj] at hl0
          exact ⟨a :: h0, by simp, by simp⟩
        | cons y t1 =>
          rw [List.getLast?_cons_cons] at hl0 ⊢
          exact ⟨l0, hl0, hl0ne⟩

theorem head_dropWhile_not (p : Char → Bool) (l : List Char) :
    ∀ c, (l.dropWhile p).head? = some c → p c = false := by
  induction l with
  | nil => intro c hc; cases hc
  | cons a t ih =>
    intro c hc
    by_cases ha : p a
    · rw [List.dropWhile_cons_of_pos ha] at hc
      exact ih c hc
    · rw [List.dropWhile_cons_of_neg ha] at hc
      injection hc with hc
      subst hc
      simpa using ha

theorem getLast_dropWhile_of_ne_nil (p : Char → Bool) (l : List Char)
    (h : l.dropWhile p ≠ []) : (l.dropWhile p).getLast? = l.getLast? := by
  induction l with
  | nil => simp at h
  | cons a t ih =>
    by_cases ha : p a
    · rw [List.dropWhile_cons_of_pos ha] at h ⊢
      have ht : t ≠ [] := by
        intro he
        subst he
        simp at h
      rw [ih h]
      cases t with
      | nil => exact absurd rfl ht
      | cons x t' => rw [List.getLast?_cons_cons]
    · rw [List.dropWhile_cons_of_neg ha]

theorem jsTrim_getLast_not_ws {s : List Char} {c : Char}
    (h : (jsTrim s).getLast? = some c) : isJsWhitespace c = false := by
  unfold jsTrim at h
  rw [List.getLast?_reverse] at h
  exact head_dropWhile_not _ _ c h

theorem jsTrim_head_not_ws {s : List Char} {c : Char}
    (h : (jsTrim s).head? = some c) : isJsWhitespace c = false := by
  unfold jsTrim at h
  rw [List.head?_reverse] at h
  have hne : (s.dropWhile isJsWhitespace).reverse.dropWhile isJsWhitespace
      ≠ [] := by
    intro he
    rw [he] at h
    cases h
  rw [getLast_dropWhile_of_ne_nil _ _ hne, List.getLast?_reverse] at h
  exact head_dropWhile_not _ _ c h

/-- After `trim`, the guarded blank-line `shift`/`pop` of
`parseCommandOutput` do nothing and `join` undoes `split`. -/
theorem blank_strip_after_trim (s : List Char) :
    joinNl (popIfLastEmpty (shiftIfHeadEmpty (splitOnNl (jsTrim s))))
      = jsTrim s := by
  cases ht : jsTrim s with
  | nil => rfl
  | cons c cs =>
    have hc : c ≠ '\n' := by
      have := jsTrim_head_not_ws
        (show (jsTrim s).head? = some c by rw [ht]; rfl)
      intro he
      subst he
      simp [isJsWhitespace] at this
    obtain ⟨h0, t0, hsp⟩ : ∃ h0 t0, splitOnNl (c :: cs) = (c :: h0) :: t0 := by
      obtain ⟨h0, t0, hsp⟩ : ∃ h0 t0, splitOnNl cs = h0 :: t0 := by
        cases hx : splitOnNl cs with
        | nil => exact absurd hx (splitOnNl_ne_nil _)
        | cons h0 t0 => exact ⟨h0, t0, rfl⟩
      refine ⟨h0, t0, ?_⟩
      unfold splitOnNl
      rw [hsp]
      dsimp only
      rw [if_neg hc]
    obtain ⟨cl, hcl⟩ : ∃ cl, (c :: cs).getLast? = some cl := by
      cases hx : (c :: cs).getLast? with
      | none => simp at hx
      | some cl => exact ⟨cl, rfl⟩
    have hclne : cl ≠ '\n' := by
      have := jsTrim_getLast_not_ws
        (show (jsTrim s).getLast? = some cl by rw [ht]; exact hcl)
      intro he
      subst he
      simp [isJsWhitespace] at this
    obtain ⟨l0, hl0, hl0ne⟩ := splitOnNl_getLast_ne_nil (c :: cs) cl hcl hclne
    rw [hsp] at hl0
    rw [hsp, shiftIfHeadEmpty_cons_ne,
      popIfLastEmpty_of_getLast_ne hl0 hl0ne, ← hsp, joinNl_splitOnNl]

/-- Claim C6, refuted at a concrete input: the in-flight command's genuine
output is `"  hi  "` (framed as `D_START_1\n  hi  \nD_END_1:0\n`).  The
claim predicts stdout `"  hi  "` — the substring strictly between the
markers with one leading and one trailing blank line removed and nothing
else — but the code calls `.trim()` on that substring and resolves stdout
`"hi"`, discarding the genuine leading and trailing spaces. -/
theorem parse_trims_whitespace_counterexample :
    (∃ s', handleShellOutput sessionInFlightEx chunkEx = .ok s'
      ∧ s'.resolutions
          = [(['1'], .success ⟨"hi".toList, [], some 0, none⟩)])
    ∧ claimedStdout chunkEx "D_START_1".toList "D_END_1:0".toList
        = some "  hi  ".toList
    ∧ ("hi".toList : List Char) ≠ "  hi  ".toList := by
  exact ⟨⟨_, rfl, by decide⟩, by decide, by decide⟩

/-- Claim C6 as amended.  When the accumulated output yields a parsed exit
code and both markers are located, the resolved stdout is the substring
strictly between the start marker and the `end:<code>` marker with ALL
leading and trailing whitespace removed (`String.prototype.trim`), not
merely one blank line on each side; the guarded blank-line shift/pop that
follows the trim never removes anything further. -/
theorem parse_resolves_trimmed_between_markers
    (s : SessionState) (req : CommandRequest) (exitCode si ei : Nat)
    (s' : SessionState)
    (hcur : s.currentCommand = some req) (hraw : req.raw = false)
    (hcode : parseExitCode s.outputData
        (s.commandDelimiter ++ "_END_".toList ++ req.id) = .ok (some exitCode))
    (hsi : indexOf? s.outputData
        (s.commandDelimiter ++ "_START_".toList ++ req.id) = some si)
    (hei : indexOf? s.outputData
        ((s.commandDelimiter ++ "_END_".toList ++ req.id) ++ [':']
          ++ natToChars exitCode) = some ei)
    (hok : parseCommandOutput s = .ok s') :
    s'.resolutions = s.resolutions ++
      (if req.hasSink then
        [(req.id, .success
          ⟨jsTrim (jsSubstring s.outputData
              (si + (s.commandDelimiter ++ "_START_".toList ++ req.id).length)
              ei),
           [], some exitCode, none⟩)]
       else []) := by
  unfold parseCommandOutput at hok
  rw [hcur] at hok
  dsimp only at hok
  rw [hraw] at hok
  simp only [Bool.false_eq_true, if_false] at hok
  rw [hcode] at hok
  dsimp only at hok
  rw [hsi, hei] at hok
  dsimp only at hok
  rw [blank_strip_after_trim] at hok
  have hres := (processNextCommand_frame hok).2.1
  rw [hres]
  unfold fireSink
  by_cases hs : req.hasSink
  · rw [if_pos hs, if_pos hs]
  · rw [if_neg hs, if_neg hs]
    simp

/-- Witness for `parse_resolves_trimmed_between_markers` at the concrete
in-flight session with accumulator `chunkEx`: the resolution carries the
trimmed between-markers substring. -/
theorem parse_resolves_trimmed_witness :
    ∃ s', parseCommandOutput
        {sessionInFlightEx with outputData := chunkEx} = .ok s'
      ∧ s'.resolutions
          = sessionInFlightEx.resolutions ++
            (if (true : Bool) then
              [(['1'], .success
                ⟨jsTrim (jsSubstring chunkEx
                    (0 + ("D".toList ++ "_START_".toList ++ ['1']).length) 17),
                 [], some 0, none⟩)]
             else []) := by
  refine ⟨_, rfl, ?_⟩
  exact parse_resolves_trimmed_between_markers
    {sessionInFlightEx with outputData := chunkEx}
    ⟨['1'], "cat file".toList, 30000, false, true⟩ 0 0 17 _ rfl rfl
    rfl rfl rfl rfl

/-! ## Claim C8: pool keying

The pool key is the flat template string ``ssh-`${username}@${host}:${port}` ``.
Within it the port numeral is recoverable (it is the digit run after the
final colon, and decimal numerals are injective), so differing ports always
give differing keys; the username is recoverable only when it contains no
`'@'`, and a username containing `'@'` can make two different
`(username, host)` pairs collide on the same key. -/

theorem digitChar_toNat {d : Nat} (h : d < 10) : (digitChar d).toNat = 48 + d := by
  unfold digitChar
  interval_cases d <;> decide

theorem digitChar_ne_colon {d : Nat} (h : d < 10) : digitChar d ≠ ':' := by
  unfold digitChar
  interval_cases d <;> decide

theorem natToCharsAux_fuel : ∀ (n f g : Nat), n < f → n < g →
    natToCharsAux f n = natToCharsAux g n := by
  intro n
  induction n using Nat.strong_induction_on with
  | _ n ih =>
    intro f g h1 h2
    match f, g with
    | f + 1, g + 1 =>
      unfold natToCharsAux
      by_cases hn : n < 10
      · rw [if_pos hn, if_pos hn]
      · rw [if_neg hn, if_neg hn]
        have hdiv : n / 10 < n := Nat.div_lt_self (by omega) (by omega)
        rw [ih (n / 10) hdiv f g (by omega) (by omega)]

theorem natToChars_eq (n : Nat) :
    natToChars n = if n < 10 then [digitChar n]
      else natToChars (n / 10) ++ [digitChar (n % 10)] := by
  unfold natToChars
  conv_lhs => rw [natToCharsAux]
  by_cases hn : n < 10
  · rw [if_pos hn, if_pos hn]
  · rw [if_neg hn, if_neg hn]
    have hdiv : n / 10 < n := Nat.div_lt_self (by omega) (by omega)
    rw [natToCharsAux_fuel (n / 10) n (n / 10 + 1) (by omega) (by omega)]

theorem natToChars_no_colon (n : Nat) : ':' ∉ natToChars n := by
  induction n using Nat.strong_induction_on with
  | _ n ih =>
    rw [natToChars_eq]
    by_cases hn : n < 10
    · rw [if_pos hn]
      simp only [List.mem_singleton]
      exact fun he => digitChar_ne_colon hn he.symm
    · rw [if_neg hn]
      intro hmem
      rcases List.mem_append.mp hmem with hmem | hmem
      · exact ih (n / 10) (Nat.div_lt_self (by omega) (by omega)) hmem
      · simp only [List.mem_singleton] at hmem
        exact digitChar_ne_colon (Nat.mod_lt n (by omega)) hmem.symm

theorem digitsVal_append_digit (l : List Char) (c : Char) :
    digitsVal (l ++ [c]) = digitsVal l * 10 + (c.toNat - 48) := by
  unfold digitsVal
  rw [List.foldl_append]
  rfl

theorem digitsVal_natToChars (n : Nat) : digitsVal (natToChars n) = n := by
  induction n using Nat.strong_induction_on with
  | _ n ih =>
    rw [natToChars_eq]
    by_cases hn : n < 10
    · rw [if_pos hn]
      show digitsVal ([] ++ [digitChar n]) = n
      rw [digitsVal_append_digit, digitChar_toNat hn]
      have hz : digitsVal [] = 0 := rfl
      rw [hz]
      omega
    · rw [if_neg hn, digitsVal_append_digit,
        ih (n / 10) (Nat.div_lt_self (by omega) (by omega)),
        digitChar_toNat (Nat.mod_lt n (by omega))]
      omega

theorem natToChars_injective {a b : Nat} (h : natToChars a = natToChars b) :
    a = b := by
  rw [← digitsVal_natToChars a, ← digitsVal_natToChars b, h]

theorem append_sep_inj {sep : Char} {a b u v : List Char}
    (ha : sep ∉ a) (hb : sep ∉ b) (h : a ++ sep :: u = b ++ sep :: v) :
    a = b ∧ u = v := by
  induction a generalizing b with
  | nil =>
    cases b with
    | nil =>
      simp only [List.nil_append] at h
      injection h with _ h
      exact ⟨rfl, h⟩
    | cons x b' =>
      simp only [List.nil_append, List.cons_append] at h
      injection h with h1 _
      exact absurd (h1 ▸ List.mem_cons_self x b') hb
  | cons x a' iha =>
    cases b with
    | nil =>
      simp only [List.cons_append, List.nil_append] at h
      injection h with h1 _
      exact absurd (h1.symm ▸ List.mem_cons_self x a') ha
    | cons y b' =>
      simp only [List.cons_append] at h
      injection h with h1 h2
      subst h1
      obtain ⟨he, hv⟩ := iha (fun hm => ha (List.mem_cons_of_mem _ hm))
        (fun hm => hb (List.mem_cons_of_mem _ hm)) h2
      exact ⟨by rw [he], hv⟩

theorem connKey_decomp (username host : List Char) (port : Nat) :
    connKey username host port
      = ("ssh-".toList ++ username ++ '@' :: host) ++ ':' :: natToChars port := by
  unfold connKey
  simp

theorem connKey_port_inj {u1 h1 u2 h2 : List Char} {p1 p2 : Nat}
    (hk : connKey u1 h1 p1 = connKey u2 h2 p2) : p1 = p2 := by
  rw [connKey_decomp, connKey_decomp] at hk
  have hrev := congrArg List.reverse hk
  simp only [List.reverse_append, List.reverse_cons, List.append_assoc,
    List.singleton_append] at hrev
  obtain ⟨hd, _⟩ := append_sep_inj
    (fun hm => natToChars_no_colon p1 (List.mem_reverse.mp hm))
    (fun hm => natToChars_no_colon p2 (List.mem_reverse.mp hm)) hrev
  exact natToChars_injective (List.reverse_injective hd)

theorem connKey_user_inj {u1 h1 u2 h2 : List Char} {p1 p2 : Nat}
    (hu1 : '@' ∉ u1) (hu2 : '@' ∉ u2)
    (hk : connKey u1 h1 p1 = connKey u2 h2 p2) : u1 = u2 := by
  unfold connKey at hk
  simp only [List.append_assoc, List.cons_append] at hk
  have hk' := List.append_cancel_left hk
  exact (append_sep_inj hu1 hu2 hk').1

theorem poolLookup_none_keys {conns : List PoolEntry} {key : List Char}
    (h : poolLookup conns key = none) : ∀ e ∈ conns, e.key ≠ key := by
  intro e he
  have := List.find?_eq_none.mp h e he
  simpa using this

theorem poolDelete_keys {conns : List PoolEntry} {key : List Char} :
    ∀ e ∈ poolDelete conns key, e.key ≠ key := by
  intro e he
  have := List.of_mem_filter he
  simpa using this

theorem poolLookup_append_fresh {conns : List PoolEntry} {key : List Char}
    (h : ∀ e ∈ conns, e.key ≠ key) (entry : PoolEntry)
    (hk : entry.key = key) :
    poolLookup (conns ++ [entry]) key = some entry := by
  unfold poolLookup
  rw [List.find?_append]
  rw [show conns.find? (fun e => e.key = key) = none from
    List.find?_eq_none.mpr (by intro e he; simpa using h e he)]
  simp [hk]

/-- The pool invariant is preserved by `getConnection`, a successful
acquire leaves a live entry for the key carrying the returned client, and
the returned client is below the new fresh-counter. -/
theorem getConnection_ok_strong {p q : PoolState}
    {host username kp : List Char} {port c : Nat}
    (hinv : PoolInv p)
    (h : getConnection p host username kp port = (.ok c, q)) :
    PoolInv q
    ∧ (∃ e, poolLookup q.connections (connKey username host port) = some e
        ∧ e.clientId = c ∧ e.connected = true)
    ∧ c < q.nextClient := by
  unfold getConnection at h
  split at h
  · injection h with h1 _
    cases h1
  · split at h
    · injection h with h1 _
      cases h1
    · dsimp only at h
      split at h
      · rename_i entry hfind
        split at h
        · rename_i hconn
          injection h with h1 h2
          injection h1 with h1
          subst h1 h2
          refine ⟨hinv, ⟨entry, hfind, rfl, hconn⟩, ?_⟩
          exact hinv.1 entry (poolLookup_some hfind).1
        · rename_i hconn
          injection h with h1 h2
          injection h1 with h1
          subst h1
          subst h2
          have hdel := @poolDelete_keys p.connections
            (connKey username host port)
          have hsub : (poolDelete p.connections
              (connKey username host port)).Sublist p.connections :=
            List.filter_sublist _
          refine ⟨⟨?_, ?_⟩, ⟨⟨connKey username host port, p.nextClient, true⟩,
            poolLookup_append_fresh hdel _ rfl, rfl, rfl⟩,
            by dsimp only; omega⟩
          · intro e he
            rcases List.mem_append.mp he with he | he
            · have := hinv.1 e (hsub.mem he)
              simp only []
              omega
            · simp only [List.mem_singleton] at he
              subst he
              simp
          · rw [List.pairwise_append]
            refine ⟨hinv.2.sublist hsub, by simp, ?_⟩
            intro a ha b hb
            simp only [List.mem_singleton] at hb
            subst hb
            have hid := hinv.1 a (hsub.mem ha)
            exact ⟨hdel a ha, by simp; omega⟩
      · rename_i hfind
        injection h with h1 h2
        injection h1 with h1
        subst h1
        subst h2
        have hkeys := poolLookup_none_keys hfind
        refine ⟨⟨?_, ?_⟩, ⟨⟨connKey username host port, p.nextClient, true⟩,
          poolLookup_append_fresh hkeys _ rfl, rfl, rfl⟩,
          by dsimp only; omega⟩
        · intro e he
          rcases List.mem_append.mp he with he | he
          · have := hinv.1 e he
            simp only []
            omega
          · simp only [List.mem_singleton] at he
            subst he
            simp
        · rw [List.pairwise_append]
          refine ⟨hinv.2, by simp, ?_⟩
          intro a ha b hb
          simp only [List.mem_singleton] at hb
          subst hb
          have hid := hinv.1 a ha
          exact ⟨hkeys a ha, by simp; omega⟩

/-- A successful acquire either reuses a live entry already in the pool
(returning its stored client) or returns the fresh client identity. -/
theorem getConnection_ok_cases {p q : PoolState}
    {host username kp : List Char} {port c : Nat}
    (h : getConnection p host username kp port = (.ok c, q)) :
    (∃ e ∈ p.connections, e.key = connKey username host port
      ∧ e.clientId = c)
    ∨ c = p.nextClient := by
  unfold getConnection at h
  split at h
  · injection h with h1 _
    cases h1
  · split at h
    · injection h with h1 _
      cases h1
    · dsimp only at h
      split at h
      · rename_i entry hfind
        split at h
        · injection h with h1 _
          injection h1 with h1
          exact .inl ⟨entry, (poolLookup_some hfind).1,
            (poolLookup_some hfind).2, h1⟩
        · injection h with h1 _
          injection h1 with h1
          exact .inr h1.symm
      · injection h with h1 _
        injection h1 with h1
        exact .inr h1.symm

/-- Claim C8, refuted at a concrete input: the flat key string aliases
`(username = "a@b", host = "c")` with `(username = "a", host = "b@c")` —
both build the key `ssh-a@b@c:22` — so two acquires whose triples differ
in username (and host) return the SAME client instance (identity 0), where
the claim demands distinct instances. -/
theorem acquire_aliased_usernames_counterexample :
    ("a@b".toList : List Char) ≠ "a".toList
    ∧ connKey "a@b".toList "c".toList 22 = connKey "a".toList "b@c".toList 22
    ∧ (getConnection PoolState.empty "c".toList "a@b".toList "/k".toList
        22).1 = .ok 0
    ∧ (getConnection
        (getConnection PoolState.empty "c".toList "a@b".toList "/k".toList
          22).2
        "b@c".toList "a".toList "/k".toList 22).1 = .ok 0 := by
  exact ⟨by decide, by decide, rfl, rfl⟩

/-- Claim C8 as amended.  Acquires are shared per key `ssh-<user>@<host>:<port>`:
a second acquire with the same triple returns the same live transport and
leaves the pool unchanged; acquires whose keys differ return distinct
client instances; differing ports always force differing keys; and
differing usernames force differing keys provided neither username contains
`'@'` (a username containing `'@'` can alias another `(username, host)`
split, as the counterexample shows). -/
theorem pool_keying_per_key_transport
    (p : PoolState) (host username privateKeyPath : List Char) (port : Nat)
    (hinv : PoolInv p)
    (hh : host ≠ []) (hu : username ≠ []) (hk : privateKeyPath ≠ [])
    (hp0 : port ≠ 0) (hple : port ≤ 65535) :
    (∀ c q, getConnection p host username privateKeyPath port = (.ok c, q) →
        getConnection q host username privateKeyPath port = (.ok c, q))
    ∧ (∀ host2 username2 kp2 : List Char, ∀ port2 c1 c2 : Nat,
        ∀ q r : PoolState,
        getConnection p host username privateKeyPath port = (.ok c1, q) →
        getConnection q host2 username2 kp2 port2 = (.ok c2, r) →
        connKey username host port ≠ connKey username2 host2 port2 →
        c1 ≠ c2)
    ∧ (∀ username2 host2 : List Char, ∀ port2 : Nat, port ≠ port2 →
        connKey username host port ≠ connKey username2 host2 port2)
    ∧ (∀ username2 host2 : List Char, ∀ port2 : Nat, username ≠ username2 →
        '@' ∉ username → '@' ∉ username2 →
        connKey username host port ≠ connKey username2 host2 port2) := by
  refine ⟨fun c q hq => ?_, ?_, fun username2 host2 port2 hne hkey => ?_,
    fun username2 host2 port2 hne ha1 ha2 hkey => ?_⟩
  · obtain ⟨_, ⟨e, hfind, hid, hconn⟩, _⟩ := getConnection_ok_strong hinv hq
    unfold getConnection
    rw [if_neg (by simp [hh, hu, hk]), if_neg (by omega)]
    dsimp only
    rw [hfind]
    dsimp only
    rw [if_pos hconn, hid]
  · intro host2 username2 kp2 port2 c1 c2 q r h1 h2 hne
    obtain ⟨hinvq, ⟨e1, hfind1, hid1, _⟩, hlt1⟩ :=
      getConnection_ok_strong hinv h1
    rcases getConnection_ok_cases h2 with ⟨e2, he2mem, he2key, he2id⟩ | hfresh
    · have he1mem := (poolLookup_some hfind1).1
      have he1key := (poolLookup_some hfind1).2
      have hne12 : e1 ≠ e2 := by
        intro he
        rw [he, he2key] at he1key
        exact hne he1key.symm
      have hsym : Symmetric (fun a b : PoolEntry =>
          a.key ≠ b.key ∧ a.clientId ≠ b.clientId) := by
        intro a b hab
        exact ⟨hab.1.symm, hab.2.symm⟩
      have := List.Pairwise.forall hsym hinvq.2 he1mem he2mem hne12
      rw [← hid1, ← he2id]
      exact this.2
    · rw [← hid1] at hlt1
      omega
  · exact hne (connKey_port_inj hkey)
  · exact hne (connKey_user_inj ha1 ha2 hkey)

/-- Witness for `pool_keying_per_key_transport`: on the empty pool a second
acquire for the same `(u, h, 22)` returns the same client `0` without
touching the pool, and the key for port 2222 differs from the key for
port 22. -/
theorem pool_keying_witness :
    getConnection
        (getConnection PoolState.empty "h".toList "u".toList "/k".toList
          22).2
        "h".toList "u".toList "/k".toList 22
      = (.ok 0,
         (getConnection PoolState.empty "h".toList "u".toList "/k".toList
           22).2)
    ∧ connKey "u".toList "h".toList 22 ≠ connKey "u".toList "h".toList 2222 := by
  have h := pool_keying_per_key_transport PoolState.empty "h".toList
    "u".toList "/k".toList 22
    (by constructor <;> simp [PoolState.empty])
    (by decide) (by decide) (by decide) (by decide) (by decide)
  exact ⟨h.1 0 _ rfl, h.2.2.1 "u".toList "h".toList 2222 (by decide)⟩

end SCM
